import Mathlib

/-!
Verification of the kernel-generation routines of `gabor_functions.py`
(Gabor kernels, Log-Gabor kernels, Butterworth low-pass windowing, and the
filter-bank builders), shallowly embedded over the real numbers.

Conventions of the embedding:
* a kernel grid is a `List (List ℝ)` in row-major order (the numpy array of
  shape `rows × cols`);
* machine floats are modelled by exact reals;
* a Python call that raises (the explicit `raise` statements of
  `_low_pass_filter`, the scalar `ZeroDivisionError`s of `get_gabor_kernel`'s
  constant setup, and the out-of-range `itemset` of `get_log_gabor_kernel` on
  degenerate sizes) is modelled as `none`; a call that returns a grid is
  `some grid`.  `none` is the single failure outcome (the spec's
  InvalidParameter condition);
* numpy's elementwise array arithmetic never raises, so it is modelled by
  total real arithmetic (Lean's `x / 0 = 0` stands in for the silent
  inf/nan propagation of numpy warnings);
* `np.arange(-c/2, c/2)` for a natural size `c` has entries `-c/2 + k`,
  `k = 0, …, c-1`; Python's `int(c / 2)` is natural floor division `c / 2`.
-/

/-- A kernel grid: rows of real coefficients, row-major. -/
abbrev Grid := List (List ℝ)

/-- Build a `h × w` grid from a cell formula (row index first). -/
def mkGrid (h w : ℕ) (f : ℕ → ℕ → ℝ) : Grid :=
  (List.range h).map (fun i => (List.range w).map (fun j => f i j))

/-- Total cell accessor (0 outside range), used to state per-cell facts. -/
def cell (g : Grid) (i j : ℕ) : ℝ :=
  (g.getD i []).getD j 0

lemma mkGrid_length (h w : ℕ) (f : ℕ → ℕ → ℝ) : (mkGrid h w f).length = h := by
  simp [mkGrid]

lemma mkGrid_row_length (h w : ℕ) (f : ℕ → ℕ → ℝ) :
    ∀ row ∈ mkGrid h w f, row.length = w := by
  intro row hrow
  simp [mkGrid] at hrow
  obtain ⟨i, _, rfl⟩ := hrow
  simp

lemma cell_mkGrid (h w : ℕ) (f : ℕ → ℕ → ℝ) (i j : ℕ) (hi : i < h) (hj : j < w) :
    cell (mkGrid h w f) i j = f i j := by
  simp [cell, mkGrid, List.getD, hi, hj]

/-- The value `get_gabor_kernel` writes into cell `(i, j)`:
`exp(const_x·xr² + const_y·yr²) · cos(const_scale·xr + psi)` with
`const_x = -0.5/sigma²`, `const_y = -0.5/(sigma/gamma)²`,
`const_scale = 2π/lambd`, offsets `y = i - int(height/2)`,
`x = j - int(width/2)`, rotated by `theta`. -/
noncomputable def gabor_value (width height : ℕ) (sigma theta lambd gamma psi : ℝ)
    (i j : ℕ) : ℝ :=
  let costheta := Real.cos theta
  let sintheta := Real.sin theta
  let half_width : ℕ := width / 2
  let half_height : ℕ := height / 2
  let const_x := -0.5 / sigma ^ 2
  let const_y := -0.5 / (sigma / gamma) ^ 2
  let const_scale := Real.pi * 2.0 / lambd
  let y : ℝ := (i : ℝ) - (half_height : ℕ)
  let x : ℝ := (j : ℝ) - (half_width : ℕ)
  let xr := x * costheta + y * sintheta
  let yr := -x * sintheta + y * costheta
  Real.exp (const_x * xr * xr + const_y * yr * yr) *
    Real.cos (const_scale * xr + psi)

/-- Embedding of `get_gabor_kernel(ksize, sigma, theta, lambd, gamma, psi)`.
`ksize = (width, height)`.  The constant setup `-0.5 / sigma**2`,
`-0.5 / (sigma/gamma)**2`, `pi*2.0/lambd` raises `ZeroDivisionError`
(before any cell is written) exactly when `sigma = 0`, `gamma = 0` or
`lambd = 0`; that failure is `none`. -/
noncomputable def get_gabor_kernel (ksize : ℕ × ℕ) (sigma theta lambd gamma psi : ℝ) :
    Option Grid :=
  let width := ksize.1
  let height := ksize.2
  if sigma = 0 ∨ gamma = 0 ∨ lambd = 0 then none
  else some (mkGrid height width (gabor_value width height sigma theta lambd gamma psi))

/-- Euclidean radius of cell `(i, j)` on `_low_pass_filter`'s coordinate grid:
horizontal coordinates `arange(-cols/2, cols/2)/cols`, vertical coordinates
`arange(-rows/2, rows/2)/rows`, `radius = hypot(x, y)`. -/
noncomputable def low_pass_radius (cols rows : ℕ) (i j : ℕ) : ℝ :=
  let x := (-(cols : ℝ) / 2 + j) / cols
  let y := (-(rows : ℝ) / 2 + i) / rows
  Real.sqrt (x ^ 2 + y ^ 2)

/-- The value `_low_pass_filter` computes at cell `(i, j)`:
`1 / (1 + (radius/cutoff)^(2n))`. -/
noncomputable def low_pass_value (cols rows : ℕ) (cutoff : ℝ) (n : ℕ) (i j : ℕ) : ℝ :=
  1.0 / (1.0 + (low_pass_radius cols rows i j / cutoff) ^ (2 * n))

/-- Embedding of `_low_pass_filter(fsize, cutoff, n)`, `fsize = (cols, rows)`.
The code raises (modelled `none`) when `cutoff < 0 or cutoff > 0.5`, or when
`n < 1`; note the first check lets `cutoff = 0` through. -/
noncomputable def low_pass_filter (fsize : ℕ × ℕ) (cutoff : ℝ) (n : ℕ) : Option Grid :=
  let cols := fsize.1
  let rows := fsize.2
  if cutoff < 0 ∨ cutoff > 0.5 then none
  else if n < 1 then none
  else some (mkGrid rows cols (low_pass_value cols rows cutoff n))

/-- C9: a call to get_gabor_kernel with sigma = 0, gamma = 0, or lambd = 0
fails (the InvalidParameter outcome, `none`) and returns no grid. -/
theorem gabor_invalid_param_fails (ksize : ℕ × ℕ) (sigma theta lambd gamma psi : ℝ)
    (h : sigma = 0 ∨ gamma = 0 ∨ lambd = 0) :
    get_gabor_kernel ksize sigma theta lambd gamma psi = none := by
  simp only [get_gabor_kernel]
  rw [if_pos h]

/-- Witness for C9 at `sigma = 0`. -/
theorem gabor_invalid_param_fails_witness :
    get_gabor_kernel (5, 5) 0 0 3 1 0 = none :=
  gabor_invalid_param_fails (5, 5) 0 0 3 1 0 (Or.inl rfl)

/-- C2: for every cell `(i, j)` of the grid (with nonzero sigma, gamma and
lambd), the grid returned by get_gabor_kernel has shape height × width and the
cell value is `exp(-0.5·xr²/sigma² - 0.5·yr²/(sigma/gamma)²) ·
cos((2π/lambd)·xr + psi)`, where `y = i - ⌊height/2⌋`, `x = j - ⌊width/2⌋`,
`xr = x·cosθ + y·sinθ`, `yr = -x·sinθ + y·cosθ` (floored half-sizes used
exactly). -/
theorem gabor_kernel_value (width height : ℕ) (sigma theta lambd gamma psi : ℝ)
    (hs : sigma ≠ 0) (hg : gamma ≠ 0) (hl : lambd ≠ 0)
    (i j : ℕ) (hi : i < height) (hj : j < width) (x y xr yr : ℝ)
    (hx : x = (j : ℝ) - (width / 2 : ℕ)) (hy : y = (i : ℝ) - (height / 2 : ℕ))
    (hxr : xr = x * Real.cos theta + y * Real.sin theta)
    (hyr : yr = -x * Real.sin theta + y * Real.cos theta) :
    ∃ K, get_gabor_kernel (width, height) sigma theta lambd gamma psi = some K ∧
      K.length = height ∧ (∀ row ∈ K, row.length = width) ∧
      cell K i j =
        Real.exp (-0.5 * xr ^ 2 / sigma ^ 2 - 0.5 * yr ^ 2 / (sigma / gamma) ^ 2) *
          Real.cos (2 * Real.pi / lambd * xr + psi) := by
  subst hx hy hxr hyr
  have hguard : ¬ (sigma = 0 ∨ gamma = 0 ∨ lambd = 0) := by
    push_neg
    exact ⟨hs, hg, hl⟩
  refine ⟨mkGrid height width (gabor_value width height sigma theta lambd gamma psi),
    ?_, mkGrid_length _ _ _, mkGrid_row_length _ _ _, ?_⟩
  · simp only [get_gabor_kernel]
    rw [if_neg hguard]
  · rw [cell_mkGrid _ _ _ _ _ hi hj]
    simp only [gabor_value]
    congr 1
    · congr 1
      ring
    · congr 1
      ring

/-- Witness for C2 at `ksize = (5,5)`, `sigma = 1`, `theta = 0`, `lambd = 3`,
`gamma = 1`, `psi = 0`, center cell `(2,2)` (offsets 0). -/
theorem gabor_kernel_value_witness :
    ∃ K, get_gabor_kernel (5, 5) 1 0 3 1 0 = some K ∧
      K.length = 5 ∧ (∀ row ∈ K, row.length = 5) ∧
      cell K 2 2 =
        Real.exp (-0.5 * 0 ^ 2 / 1 ^ 2 - 0.5 * 0 ^ 2 / (1 / 1) ^ 2) *
          Real.cos (2 * Real.pi / 3 * 0 + 0) :=
  gabor_kernel_value 5 5 1 0 3 1 0 (by norm_num) (by norm_num) (by norm_num)
    2 2 (by norm_num) (by norm_num) 0 0 0 0 (by norm_num) (by norm_num)
    (by norm_num) (by norm_num)

/-- C8: for gamma = 1 and psi = 0, the Gabor grid is point-symmetric about the
centered offsets: two cells whose offsets are `(x, y)` and `(-x, -y)` carry
equal values. -/
theorem gabor_point_symmetry (width height : ℕ) (sigma theta lambd : ℝ)
    (hs : sigma ≠ 0) (hl : lambd ≠ 0) (i j i2 j2 : ℕ)
    (hi : i < height) (hj : j < width) (hi2 : i2 < height) (hj2 : j2 < width)
    (hy : (i2 : ℝ) - (height / 2 : ℕ) = -((i : ℝ) - (height / 2 : ℕ)))
    (hx : (j2 : ℝ) - (width / 2 : ℕ) = -((j : ℝ) - (width / 2 : ℕ))) :
    ∃ K, get_gabor_kernel (width, height) sigma theta lambd 1 0 = some K ∧
      cell K i j = cell K i2 j2 := by
  have hguard : ¬ (sigma = 0 ∨ (1 : ℝ) = 0 ∨ lambd = 0) := by
    push_neg
    exact ⟨hs, one_ne_zero, hl⟩
  refine ⟨mkGrid height width (gabor_value width height sigma theta lambd 1 0), ?_, ?_⟩
  · simp only [get_gabor_kernel]
    rw [if_neg hguard]
  · rw [cell_mkGrid _ _ _ _ _ hi hj, cell_mkGrid _ _ _ _ _ hi2 hj2]
    simp only [gabor_value]
    rw [hx, hy]
    have harg : ∀ a : ℝ, Real.cos (Real.pi * 2.0 / lambd *
        (-((j : ℝ) - (width / 2 : ℕ)) * Real.cos theta +
          -((i : ℝ) - (height / 2 : ℕ)) * Real.sin theta) + 0) =
        Real.cos (-(Real.pi * 2.0 / lambd *
        (((j : ℝ) - (width / 2 : ℕ)) * Real.cos theta +
          ((i : ℝ) - (height / 2 : ℕ)) * Real.sin theta) + 0)) := by
      intro a
      congr 1
      ring
    congr 1
    · congr 1
      ring
    · rw [harg 0, add_zero, Real.cos_neg]

/-- Witness for C8 on a 3×3 grid: cells `(0,0)` and `(2,2)` have opposite
offsets `(-1,-1)` and `(1,1)`. -/
theorem gabor_point_symmetry_witness :
    ∃ K, get_gabor_kernel (3, 3) 1 1 3 1 0 = some K ∧ cell K 0 0 = cell K 2 2 :=
  gabor_point_symmetry 3 3 1 1 3 (by norm_num) (by norm_num) 0 0 2 2
    (by norm_num) (by norm_num) (by norm_num) (by norm_num) (by norm_num) (by norm_num)


/-- Counterexample to C3: the claim says a call with `cutoff = 0` fails, but
the code's first check is `cutoff < 0 or cutoff > 0.5`, so `cutoff = 0`
passes validation and a grid is returned. -/
theorem low_pass_cutoff_zero_succeeds : low_pass_filter (4, 4) 0 1 ≠ none := by
  simp only [low_pass_filter]
  rw [if_neg (by norm_num), if_neg (by norm_num)]
  exact Option.some_ne_none _

/-- C3 (amended): low_pass_filter fails iff `cutoff < 0`, `cutoff > 0.5`
or `n < 1`; in particular `cutoff = 0.6` fails, `cutoff = 0` with `n ≥ 1`
does not fail, and for `cutoff ∈ (0, 0.5]`, `n ≥ 1` a complete grid of the
requested dimensions is returned. -/
theorem low_pass_validation (cols rows : ℕ) (cutoff : ℝ) (n : ℕ) :
    (low_pass_filter (cols, rows) cutoff n = none ↔
      cutoff < 0 ∨ cutoff > 0.5 ∨ n < 1) ∧
    low_pass_filter (cols, rows) 0.6 1 = none ∧
    (1 ≤ n → low_pass_filter (cols, rows) 0 n ≠ none) ∧
    (0 < cutoff → cutoff ≤ 0.5 → 1 ≤ n →
      ∃ g, low_pass_filter (cols, rows) cutoff n = some g ∧
        g.length = rows ∧ ∀ row ∈ g, row.length = cols) := by
  refine ⟨?_, ?_, ?_, ?_⟩
  · simp only [low_pass_filter]
    by_cases h1 : cutoff < 0 ∨ cutoff > 0.5
    · rw [if_pos h1]
      simp only [eq_self_iff_true, true_iff]
      tauto
    · rw [if_neg h1]
      by_cases h2 : n < 1
      · rw [if_pos h2]
        simp only [eq_self_iff_true, true_iff]
        tauto
      · rw [if_neg h2]
        simp only [reduceCtorEq, false_iff]
        push_neg at h1 ⊢
        exact ⟨h1.1, h1.2, not_lt.mp h2⟩
  · norm_num [low_pass_filter]
  · intro hn
    simp only [low_pass_filter]
    rw [if_neg (by norm_num), if_neg (not_lt.mpr hn)]
    exact Option.some_ne_none _
  · intro h0 h5 hn
    have h1 : ¬ ((cutoff : ℝ) < 0 ∨ cutoff > 0.5) := by
      push_neg
      exact ⟨le_of_lt h0, h5⟩
    have h2 : ¬ (n < 1) := not_lt.mpr hn
    refine ⟨mkGrid rows cols (low_pass_value cols rows cutoff n), ?_,
      mkGrid_length _ _ _, mkGrid_row_length _ _ _⟩
    simp only [low_pass_filter]
    rw [if_neg h1, if_neg h2]

/-- Witness for C3 (amended) at `fsize = (4,4)`, `cutoff = 0.25`, `n = 2`. -/
theorem low_pass_validation_witness :
    (low_pass_filter (4, 4) 0.25 2 = none ↔
      (0.25 : ℝ) < 0 ∨ (0.25 : ℝ) > 0.5 ∨ 2 < 1) ∧
    low_pass_filter (4, 4) 0.6 1 = none ∧
    (1 ≤ 2 → low_pass_filter (4, 4) 0 2 ≠ none) ∧
    ((0 : ℝ) < 0.25 → (0.25 : ℝ) ≤ 0.5 → 1 ≤ 2 →
      ∃ g, low_pass_filter (4, 4) 0.25 2 = some g ∧
        g.length = 4 ∧ ∀ row ∈ g, row.length = 4) :=
  low_pass_validation 4 4 0.25 2

/-- C6: for valid parameters, every cell of the low-pass grid equals
`1 / (1 + (r/cutoff)^(2n))` with `r` the cell's Euclidean radius on the
normalized coordinate grid, and wherever `r = cutoff` exactly the value is
exactly `1/2`, independent of the order `n`. -/
theorem low_pass_cell_value (cols rows : ℕ) (cutoff : ℝ) (n : ℕ)
    (h0 : 0 < cutoff) (h5 : cutoff ≤ 0.5) (hn : 1 ≤ n)
    (i j : ℕ) (hi : i < rows) (hj : j < cols) :
    ∃ g, low_pass_filter (cols, rows) cutoff n = some g ∧
      cell g i j = 1 / (1 + (low_pass_radius cols rows i j / cutoff) ^ (2 * n)) ∧
      (low_pass_radius cols rows i j = cutoff → cell g i j = 1 / 2) := by
  have h1 : ¬ ((cutoff : ℝ) < 0 ∨ cutoff > 0.5) := by
    push_neg
    exact ⟨le_of_lt h0, h5⟩
  have h2 : ¬ (n < 1) := not_lt.mpr hn
  refine ⟨mkGrid rows cols (low_pass_value cols rows cutoff n), ?_, ?_, ?_⟩
  · simp only [low_pass_filter]
    rw [if_neg h1, if_neg h2]
  · rw [cell_mkGrid _ _ _ _ _ hi hj]
    norm_num [low_pass_value]
  · intro hr
    rw [cell_mkGrid _ _ _ _ _ hi hj]
    simp only [low_pass_value, hr]
    rw [div_self (ne_of_gt h0), one_pow]
    norm_num

/-- Witness for C6 at `fsize = (4,4)`, `cutoff = 0.5`, `n = 1`, cell `(2,2)`
(radius 0 there). -/
theorem low_pass_cell_value_witness :
    ∃ g, low_pass_filter (4, 4) 0.5 1 = some g ∧
      cell g 2 2 = 1 / (1 + (low_pass_radius 4 4 2 2 / 0.5) ^ (2 * 1)) ∧
      (low_pass_radius 4 4 2 2 = 0.5 → cell g 2 2 = 1 / 2) :=
  low_pass_cell_value 4 4 0.5 1 (by norm_num) (by norm_num) (by norm_num)
    2 2 (by norm_num) (by norm_num)

/-- Normalized frequency radius of cell `(i, j)` in `get_log_gabor_kernel`:
coordinates `arange(-cols/2, cols/2) / min(cols, rows)` crossed with
`arange(-rows/2, rows/2) / min(cols, rows)`, `radius = hypot(x, y)`. -/
noncomputable def log_gabor_radius (cols rows : ℕ) (i j : ℕ) : ℝ :=
  let m : ℝ := (min cols rows : ℕ)
  let x := (-(cols : ℝ) / 2 + j) / m
  let y := (-(rows : ℝ) / 2 + i) / m
  Real.sqrt (x ^ 2 + y ^ 2)

/-- The radius grid after the singularity patch
`radius.itemset(int(rows/2), int(cols/2), 1.0)`. -/
noncomputable def log_gabor_radius_patched (cols rows : ℕ) (i j : ℕ) : ℝ :=
  if i = rows / 2 ∧ j = cols / 2 then 1.0 else log_gabor_radius cols rows i j

/-- The radial denominator `2 * np.log(sigma_over_f) ** 2`. -/
noncomputable def lg_radial_denominator (sigma_over_f : ℝ) : ℝ :=
  2 * Real.log sigma_over_f ^ 2

/-- Radial component after the patch-then-reset sequence: on the patched
radius, `exp(-(log(radius/f0))² / (2·log(sigma_over_f)²))`, with the center
cell then reset to `0.0` by `lg_radial.itemset(int(rows/2), int(cols/2), 0.0)`. -/
noncomputable def lg_radial (cols rows : ℕ) (f0 sigma_over_f : ℝ) (i j : ℕ) : ℝ :=
  if i = rows / 2 ∧ j = cols / 2 then 0.0
  else Real.exp (-(Real.log (log_gabor_radius_patched cols rows i j / f0)) ^ 2 /
    lg_radial_denominator sigma_over_f)

/-- Polar angle `theta = np.arctan2(-y, x)` of cell `(i, j)`
(`Complex.arg ⟨x, -y⟩` is `atan2(-y, x)`). -/
noncomputable def log_gabor_theta (cols rows : ℕ) (i j : ℕ) : ℝ :=
  let m : ℝ := (min cols rows : ℕ)
  let x := (-(cols : ℝ) / 2 + j) / m
  let y := (-(rows : ℝ) / 2 + i) / m
  Complex.arg ⟨x, -y⟩

/-- Angular component: sine/cosine differences against `theta0`, absolute
angular distance `dtheta = |atan2(ds, dc)|`, then
`exp(-dtheta² / (2·sigma_theta0²))`. -/
noncomputable def lg_angular (cols rows : ℕ) (theta0 sigma_theta0 : ℝ) (i j : ℕ) : ℝ :=
  let theta := log_gabor_theta cols rows i j
  let sintheta := Real.sin theta
  let costheta := Real.cos theta
  let sinangl := Real.sin theta0
  let cosangl := Real.cos theta0
  let ds := sintheta * cosangl - costheta * sinangl
  let dc := costheta * cosangl + sintheta * sinangl
  let dtheta := |Complex.arg ⟨dc, ds⟩|
  Real.exp (-dtheta ^ 2 / (2 * sigma_theta0 ^ 2))

/-- Embedding of `get_log_gabor_kernel(ksize, f0, theta0, sigma_over_f,
sigma_theta0)`, `ksize = (cols, rows)`.  The only failing step is the patch
`radius.itemset(int(rows/2), int(cols/2), 1.0)`, whose index is out of range
exactly when the grid is degenerate (`cols = 0` or `rows = 0`); that
`IndexError` is modelled `none` and occurs before the windowing step.  None of
`f0`, `sigma_over_f`, `sigma_theta0` is validated anywhere: numpy array
arithmetic silently absorbs the division/log domain violations.  The windowing
call `_low_pass_filter(ksize, 0.45, 15)` always passes its own checks (see
`low_pass_in_log_gabor`), and the final kernel is the cell-wise product
radial · angular · lowpass. -/
noncomputable def get_log_gabor_kernel (ksize : ℕ × ℕ)
    (f0 theta0 sigma_over_f sigma_theta0 : ℝ) : Option Grid :=
  let cols := ksize.1
  let rows := ksize.2
  if cols = 0 ∨ rows = 0 then none
  else some (mkGrid rows cols (fun i j =>
    lg_radial cols rows f0 sigma_over_f i j *
      lg_angular cols rows theta0 sigma_theta0 i j *
      low_pass_value cols rows 0.45 15 i j))

lemma low_pass_in_log_gabor (ksize : ℕ × ℕ) :
    low_pass_filter ksize 0.45 15 =
      some (mkGrid ksize.2 ksize.1 (low_pass_value ksize.1 ksize.2 0.45 15)) := by
  simp only [low_pass_filter]
  rw [if_neg (by norm_num), if_neg (by norm_num)]

/-- Counterexample to C1: `get_log_gabor_kernel((5,5), f0=0, …)` does not
fail — no parameter validation exists, numpy turns the division by `f0 = 0`
into silent infinities — so a grid is returned. -/
theorem log_gabor_f0_zero_returns_grid :
    get_log_gabor_kernel (5, 5) 0 0 0.75 1 ≠ none := by
  simp only [get_log_gabor_kernel]
  rw [if_neg (by norm_num)]
  exact Option.some_ne_none _

/-- C1 (amended): get_log_gabor_kernel performs no validation of `f0`,
`sigma_over_f` or `sigma_theta0` — for any such values (including ≤ 0) and
positive dimensions it returns a complete grid of the requested shape; only a
degenerate size (a zero dimension) fails, at the singularity-patch step,
before the windowing step executes, and then no grid is returned. -/
theorem log_gabor_validation (cols rows : ℕ)
    (f0 theta0 sigma_over_f sigma_theta0 : ℝ) :
    ((cols = 0 ∨ rows = 0) →
      get_log_gabor_kernel (cols, rows) f0 theta0 sigma_over_f sigma_theta0 = none) ∧
    (0 < cols → 0 < rows →
      ∃ g, get_log_gabor_kernel (cols, rows) f0 theta0 sigma_over_f sigma_theta0 =
          some g ∧ g.length = rows ∧ ∀ row ∈ g, row.length = cols) := by
  constructor
  · intro h
    simp only [get_log_gabor_kernel]
    rw [if_pos h]
  · intro hc hr
    have hguard : ¬ (cols = 0 ∨ rows = 0) := by
      push_neg
      exact ⟨Nat.pos_iff_ne_zero.mp hc, Nat.pos_iff_ne_zero.mp hr⟩
    refine ⟨mkGrid rows cols (fun i j =>
      lg_radial cols rows f0 sigma_over_f i j *
        lg_angular cols rows theta0 sigma_theta0 i j *
        low_pass_value cols rows 0.45 15 i j), ?_,
      mkGrid_length _ _ _, mkGrid_row_length _ _ _⟩
    simp only [get_log_gabor_kernel]
    rw [if_neg hguard]

/-- Witness for C1 (amended): `f0 = 0` on a 5×5 grid still yields a full
grid, and a degenerate 0×5 size fails. -/
theorem log_gabor_validation_witness :
    (((5 : ℕ) = 0 ∨ (5 : ℕ) = 0) →
      get_log_gabor_kernel (5, 5) 0 0 0.75 1 = none) ∧
    (0 < 5 → 0 < 5 →
      ∃ g, get_log_gabor_kernel (5, 5) 0 0 0.75 1 = some g ∧
        g.length = 5 ∧ ∀ row ∈ g, row.length = 5) :=
  log_gabor_validation 5 5 0 0 0.75 1

/-- C4 is a code bug at odd sizes: on the 5×5 grid the claimed zero-radius
center cell `(2,2)` in fact has radius `√2/10 ≠ 0` (the `arange(-5/2, 5/2)`
coordinates are half-integers, never 0), no cell of the grid has radius 0,
and the patch nevertheless overwrites cell `(2,2)` with `1.0`. -/
theorem log_gabor_center_radius_bug :
    log_gabor_radius 5 5 2 2 = Real.sqrt 2 / 10 ∧
    (∀ i j : ℕ, log_gabor_radius 5 5 i j ≠ 0) ∧
    log_gabor_radius_patched 5 5 2 2 = 1.0 := by
  refine ⟨?_, ?_, ?_⟩
  · simp only [log_gabor_radius]
    norm_num
    rw [show (50 : ℝ) = 5 ^ 2 * 2 by norm_num, Real.sqrt_mul (by positivity),
      Real.sqrt_sq (by norm_num)]
    refine inv_eq_of_mul_eq_one_right ?_
    rw [show (5 : ℝ) * Real.sqrt 2 * (Real.sqrt 2 / 10) = Real.sqrt 2 * Real.sqrt 2 / 2
      by ring]
    rw [Real.mul_self_sqrt (by norm_num)]
    norm_num
  · intro i j
    simp only [log_gabor_radius]
    intro h
    have hx : (-(5 : ℝ) / 2 + j) / ((min 5 5 : ℕ) : ℝ) ≠ 0 := by
      intro hx0
      rw [div_eq_zero_iff] at hx0
      have h25 : (2 * j : ℕ) = 5 := by
        have : (2 * j : ℝ) = 5 := by
          rcases hx0 with h1 | h2
          · linarith
          · norm_num at h2
        exact_mod_cast this
      omega
    have hpos : 0 < (-(5 : ℝ) / 2 + j) / ((min 5 5 : ℕ) : ℝ) ^ 2 * 0 + 1 := by norm_num
    have hsum : 0 < ((-(5 : ℝ) / 2 + j) / ((min 5 5 : ℕ) : ℝ)) ^ 2 +
        ((-(5 : ℝ) / 2 + i) / ((min 5 5 : ℕ) : ℝ)) ^ 2 :=
      add_pos_of_pos_of_nonneg (pow_two_pos_of_ne_zero hx) (sq_nonneg _)
    exact absurd h (ne_of_gt (Real.sqrt_pos.mpr hsum))
  · simp [log_gabor_radius_patched]

/-- C5: for every positive size and valid parameters, the Log-Gabor grid's
exact center cell `(rows/2, cols/2)` has value exactly `0.0` (the radial
component is reset to 0 there and the cell-wise product preserves it). -/
theorem log_gabor_center_zero (cols rows : ℕ) (hc : 0 < cols) (hr : 0 < rows)
    (f0 theta0 sigma_over_f sigma_theta0 : ℝ)
    (hf : 0 < f0) (hsf : 0 < sigma_over_f) (hst : 0 < sigma_theta0) :
    ∃ g, get_log_gabor_kernel (cols, rows) f0 theta0 sigma_over_f sigma_theta0 =
        some g ∧ cell g (rows / 2) (cols / 2) = 0 := by
  have hguard : ¬ (cols = 0 ∨ rows = 0) := by
    push_neg
    exact ⟨Nat.pos_iff_ne_zero.mp hc, Nat.pos_iff_ne_zero.mp hr⟩
  refine ⟨mkGrid rows cols (fun i j =>
    lg_radial cols rows f0 sigma_over_f i j *
      lg_angular cols rows theta0 sigma_theta0 i j *
      low_pass_value cols rows 0.45 15 i j), ?_, ?_⟩
  · simp only [get_log_gabor_kernel]
    rw [if_neg hguard]
  · rw [cell_mkGrid _ _ _ _ _ (Nat.div_lt_self hr (by norm_num))
      (Nat.div_lt_self hc (by norm_num))]
    simp only [lg_radial, if_pos (And.intro rfl rfl)]
    norm_num

/-- Witness for C5 on a 5×4 grid with `f0 = 0.5`, `sigma_over_f = 0.75`,
`sigma_theta0 = 1`. -/
theorem log_gabor_center_zero_witness :
    ∃ g, get_log_gabor_kernel (5, 4) 0.5 0 0.75 1 = some g ∧ cell g 2 2 = 0 :=
  log_gabor_center_zero 5 4 (by norm_num) (by norm_num) 0.5 0 0.75 1
    (by norm_num) (by norm_num) (by norm_num)

/-- C10: `sigma_over_f = 1` (admitted by the precondition `sigma_over_f > 0`)
makes the radial denominator `2·log(sigma_over_f)²` equal to 0; the code
performs no check, raises nothing, and still returns a grid of the requested
dimensions. -/
theorem log_gabor_sigma_over_f_one_no_error (cols rows : ℕ)
    (hc : 0 < cols) (hr : 0 < rows) (f0 theta0 sigma_theta0 : ℝ) :
    (0 : ℝ) < 1 ∧ lg_radial_denominator 1 = 0 ∧
    ∃ g, get_log_gabor_kernel (cols, rows) f0 theta0 1 sigma_theta0 = some g ∧
      g.length = rows ∧ ∀ row ∈ g, row.length = cols := by
  refine ⟨by norm_num, ?_, ?_⟩
  · simp [lg_radial_denominator, Real.log_one]
  · have hguard : ¬ (cols = 0 ∨ rows = 0) := by
      push_neg
      exact ⟨Nat.pos_iff_ne_zero.mp hc, Nat.pos_iff_ne_zero.mp hr⟩
    refine ⟨mkGrid rows cols (fun i j =>
      lg_radial cols rows f0 1 i j *
        lg_angular cols rows theta0 sigma_theta0 i j *
        low_pass_value cols rows 0.45 15 i j), ?_,
      mkGrid_length _ _ _, mkGrid_row_length _ _ _⟩
    simp only [get_log_gabor_kernel]
    rw [if_neg hguard]

/-- Witness for C10 on a 6×6 grid. -/
theorem log_gabor_sigma_over_f_one_no_error_witness :
    (0 : ℝ) < 1 ∧ lg_radial_denominator 1 = 0 ∧
    ∃ g, get_log_gabor_kernel (6, 6) 0.25 0 1 1 = some g ∧
      g.length = 6 ∧ ∀ row ∈ g, row.length = 6 :=
  log_gabor_sigma_over_f_one_no_error 6 6 (by norm_num) (by norm_num) 0.25 0 1

/-- Fail-fast collection of the kernels appended by the filter-bank loops:
the loop appends each kernel in order, and an error raised by any inner
kernel call aborts construction with no partial bank. -/
def sequenceOption {α : Type} : List (Option α) → Option (List α)
  | [] => some []
  | none :: _ => none
  | some a :: rest => (sequenceOption rest).map (fun l => a :: l)

lemma sequenceOption_length {α : Type} (l : List (Option α)) (l2 : List α)
    (h : sequenceOption l = some l2) : l2.length = l.length := by
  induction l generalizing l2 with
  | nil =>
    simp only [sequenceOption, Option.some_inj] at h
    subst h
    rfl
  | cons a rest ih =>
    cases a with
    | none => simp [sequenceOption] at h
    | some a =>
      simp only [sequenceOption, Option.map_eq_some'] at h
      obtain ⟨l', hl', rfl⟩ := h
      simp [ih l' hl']

lemma sequenceOption_getElem? {α : Type} (l : List (Option α)) (l2 : List α)
    (h : sequenceOption l = some l2) :
    ∀ k : ℕ, l[k]? = (l2[k]?).map (fun a => some a) := by
  induction l generalizing l2 with
  | nil =>
    simp only [sequenceOption, Option.some_inj] at h
    subst h
    intro k
    simp
  | cons a rest ih =>
    cases a with
    | none => simp [sequenceOption] at h
    | some a =>
      simp only [sequenceOption, Option.map_eq_some'] at h
      obtain ⟨l', hl', rfl⟩ := h
      intro k
      cases k with
      | zero => simp
      | succ k => simpa using ih l' hl' k

lemma flatMap_range_map_length {α : Type} (S O : ℕ) (f : ℕ → ℕ → α) :
    ((List.range S).flatMap (fun a => (List.range O).map (fun b => f a b))).length =
      S * O := by
  induction S with
  | zero => simp
  | succ S ih =>
    rw [List.range_succ]
    simp only [List.flatMap_append, List.length_append, ih]
    simp [Nat.succ_mul]

lemma flatMap_range_map_getElem? {α : Type} (S O : ℕ) (f : ℕ → ℕ → α)
    (s o : ℕ) (hs : s < S) (ho : o < O) :
    ((List.range S).flatMap (fun a => (List.range O).map (fun b => f a b)))[s * O + o]? =
      some (f s o) := by
  induction S with
  | zero => omega
  | succ S ih =>
    rw [List.range_succ, List.flatMap_append, List.getElem?_append,
      flatMap_range_map_length]
    rcases Nat.lt_or_ge s S with h | h
    · have hlt : s * O + o < S * O := by
        calc s * O + o < s * O + O := by omega
        _ = (s + 1) * O := by ring
        _ ≤ S * O := Nat.mul_le_mul_right O (by omega)
      rw [if_pos hlt]
      exact ih h
    · have hs' : s = S := by omega
      subst hs'
      rw [if_neg (by omega)]
      simp only [Nat.add_sub_cancel_left]
      simp [List.getElem?_map, List.getElem?_range ho]

/-- Embedding of `get_gabor_filterbank(ksize, n_scales, n_orientations,
min_sigma, scale_factor, gamma, psi)`: outer loop over `scale` ascending,
inner loop over `orientation` ascending, per iteration
`sigma = min_sigma + scale`, `lambd = sigma * scale_factor`,
`theta = 2π * (orientation / n_orientations)`, appending each
`get_gabor_kernel` result (fail-fast on error). -/
noncomputable def get_gabor_filterbank (ksize : ℕ × ℕ) (n_scales n_orientations : ℕ)
    (min_sigma scale_factor gamma psi : ℝ) : Option (List Grid) :=
  sequenceOption ((List.range n_scales).flatMap (fun (scale : ℕ) =>
    (List.range n_orientations).map (fun (orientation : ℕ) =>
      get_gabor_kernel ksize (min_sigma + (scale : ℝ))
        (2 * Real.pi * ((orientation : ℝ) / (n_orientations : ℝ)))
        ((min_sigma + (scale : ℝ)) * scale_factor) gamma psi)))

/-- C7: a successfully built Gabor filter bank has exactly
`n_scales · n_orientations` kernels in scale-major, orientation-minor order,
and its entry at flattened index `scale · n_orientations + orientation` is the
get_gabor_kernel result for `sigma = min_sigma + scale`,
`lambd = sigma · scale_factor`, `theta = 2π · orientation / n_orientations`
with the shared gamma and psi. -/
theorem gabor_filterbank_indexing (ksize : ℕ × ℕ) (n_scales n_orientations : ℕ)
    (hS : 1 ≤ n_scales) (hO : 1 ≤ n_orientations)
    (min_sigma scale_factor gamma psi : ℝ) (bank : List Grid)
    (h : get_gabor_filterbank ksize n_scales n_orientations min_sigma scale_factor
      gamma psi = some bank) :
    bank.length = n_scales * n_orientations ∧
    ∀ scale orientation : ℕ, scale < n_scales → orientation < n_orientations →
      get_gabor_kernel ksize (min_sigma + (scale : ℝ))
          (2 * Real.pi * ((orientation : ℝ) / (n_orientations : ℝ)))
          ((min_sigma + (scale : ℝ)) * scale_factor) gamma psi =
        bank[scale * n_orientations + orientation]? := by
  simp only [get_gabor_filterbank] at h
  constructor
  · rw [sequenceOption_length _ _ h, flatMap_range_map_length]
  · intro s o hs ho
    have hidx := flatMap_range_map_getElem? n_scales n_orientations
      (fun scale orientation =>
        get_gabor_kernel ksize (min_sigma + (scale : ℝ))
          (2 * Real.pi * ((orientation : ℝ) / (n_orientations : ℝ)))
          ((min_sigma + (scale : ℝ)) * scale_factor) gamma psi) s o hs ho
    have hseq := sequenceOption_getElem? _ _ h (s * n_orientations + o)
    have hcomb : (bank[s * n_orientations + o]?).map (fun a => some a) =
        some (get_gabor_kernel ksize (min_sigma + (s : ℝ))
          (2 * Real.pi * ((o : ℝ) / (n_orientations : ℝ)))
          ((min_sigma + (s : ℝ)) * scale_factor) gamma psi) :=
      hseq.symm.trans hidx
    cases hbk : bank[s * n_orientations + o]? with
    | none =>
      rw [hbk] at hcomb
      simp at hcomb
    | some b =>
      rw [hbk] at hcomb
      simp only [Option.map_some', Option.some_inj] at hcomb
      exact hcomb.symm

/-- Witness for C7: a 1-scale, 1-orientation bank on a 1×1 grid with
`min_sigma = 1`, `scale_factor = 3`, `gamma = 1`, `psi = 0`. -/
theorem gabor_filterbank_indexing_witness :
    ([mkGrid 1 1 (gabor_value 1 1 1 0 3 1 0)] : List Grid).length = 1 * 1 ∧
    ∀ scale orientation : ℕ, scale < 1 → orientation < 1 →
      get_gabor_kernel (1, 1) (1 + (scale : ℝ))
          (2 * Real.pi * ((orientation : ℝ) / ((1 : ℕ) : ℝ)))
          ((1 + (scale : ℝ)) * 3) 1 0 =
        ([mkGrid 1 1 (gabor_value 1 1 1 0 3 1 0)] : List Grid)[scale * 1 + orientation]? :=
  gabor_filterbank_indexing (1, 1) 1 1 (le_refl 1) (le_refl 1) 1 3 1 0
    [mkGrid 1 1 (gabor_value 1 1 1 0 3 1 0)] (by
      simp only [get_gabor_filterbank]
      rw [show List.range 1 = [0] from by decide]
      simp only [List.flatMap_cons,
        List.flatMap_nil, List.map_cons, List.map_nil, List.append_nil]
      rw [show ((1 : ℝ) + ((0 : ℕ) : ℝ)) = 1 by norm_num]
      rw [show (2 * Real.pi * (((0 : ℕ) : ℝ) / ((1 : ℕ) : ℝ))) = 0 by norm_num]
      rw [show ((1 : ℝ) * 3) = 3 by norm_num]
      simp only [get_gabor_kernel]
      rw [if_neg (by norm_num)]
      simp [sequenceOption])
